import Mathlib

/-! A verification development for the credential-hashing and authentication
core of the fleet-management application: `app/security.py`, `app/auth.py`,
and the `users` table of `app/database.py`.

Modelling conventions:
* Python `str` values are lists of characters (Unicode code points).
* Python `bytes` values are lists of naturals, each below 256.
* `hashlib.pbkdf2_hmac("sha256", pw, salt, n)` is an abstract parameter
  `kdf : KDF`; every theorem below holds for an arbitrary derivation
  function, which is strictly stronger than for the concrete one.  The one
  behaviour of `pbkdf2_hmac` that is modelled explicitly is its documented
  `ValueError` for iteration counts below 1, since it decides control flow
  in `verify_password`.
* Raising `ValueError` / `sqlite3.IntegrityError` is modelled with `Except`.
* The SQLite `users` table is a list of rows plus an id counter; its
  `UNIQUE` column constraint compares usernames byte-wise (BINARY
  collation), and the SQL `lower()` function folds only ASCII letters,
  while Python `str.lower()` also folds non-ASCII letters.
-/

set_option autoImplicit false

/-- ASCII whitespace accepted by Python `str.strip()`. -/
def isPySpace (c : Char) : Bool :=
  c.toNat = 32 || c.toNat = 9 || c.toNat = 10 || c.toNat = 13 ||
    c.toNat = 11 || c.toNat = 12

/-- Python `str.strip()`: drop leading and trailing whitespace. -/
def pyStrip (l : List Char) : List Char :=
  ((l.dropWhile isPySpace).reverse.dropWhile isPySpace).reverse

/-- Python `str.lower()` on one character, on the character repertoire this
development exercises: ASCII letters plus the main Cyrillic block
(U+0410 to U+042F, and U+0401). -/
def pyLowerChar (c : Char) : Char :=
  if 65 ≤ c.toNat ∧ c.toNat ≤ 90 then Char.ofNat (c.toNat + 32)
  else if 1040 ≤ c.toNat ∧ c.toNat ≤ 1071 then Char.ofNat (c.toNat + 32)
  else if c.toNat = 1025 then Char.ofNat 1105
  else c

/-- Python `str.lower()`. -/
def pyLower (l : List Char) : List Char := l.map pyLowerChar

/-- The SQLite built-in `lower()`, which folds only ASCII letters A-Z. -/
def sqliteLowerChar (c : Char) : Char :=
  if 65 ≤ c.toNat ∧ c.toNat ≤ 90 then Char.ofNat (c.toNat + 32) else c

/-- `lower(username)` as evaluated inside the SQL queries. -/
def sqliteLower (l : List Char) : List Char := l.map sqliteLowerChar

/-- Value of a decimal digit character. -/
def digitVal (c : Char) : Option Nat :=
  if 48 ≤ c.toNat ∧ c.toNat ≤ 57 then some (c.toNat - 48) else none

/-- The character Python uses for digit `n` in decimal and lowercase-hex
rendering (`'0'`-`'9'`, `'a'`-`'f'`). -/
def digitChr (n : Nat) : Char :=
  if n < 10 then Char.ofNat (48 + n)
  else if n < 16 then Char.ofNat (87 + n)
  else '*'

/-- Value of a hexadecimal digit character, either case. -/
def hexVal (c : Char) : Option Nat :=
  if 48 ≤ c.toNat ∧ c.toNat ≤ 57 then some (c.toNat - 48)
  else if 97 ≤ c.toNat ∧ c.toNat ≤ 102 then some (c.toNat - 87)
  else if 65 ≤ c.toNat ∧ c.toNat ≤ 70 then some (c.toNat - 55)
  else none

/-- Decimal rendering worker, fuelled to stay structurally recursive. -/
def toDecimalAux : Nat → Nat → List Char
  | 0, _ => []
  | fuel + 1, n =>
    if n < 10 then [digitChr n]
    else toDecimalAux fuel (n / 10) ++ [digitChr (n % 10)]

/-- Decimal rendering of a natural, as produced by the f-string
interpolation of the iteration count. -/
def toDecimal (n : Nat) : List Char := toDecimalAux (n + 1) n

/-- Digit-run portion of Python `int()` parsing: consumes decimal digits,
allowing a single underscore strictly between two digits. -/
def parseDigitsAux : List Char → Nat → Option Nat
  | [], acc => some acc
  | c :: rest, acc =>
    if c.toNat = 95 then
      match rest with
      | c2 :: rest2 =>
        match digitVal c2 with
        | some d => parseDigitsAux rest2 (acc * 10 + d)
        | none => none
      | [] => none
    else
      match digitVal c with
      | some d => parseDigitsAux rest (acc * 10 + d)
      | none => none

/-- Unsigned part of Python `int()`: a nonempty digit run that must start
with a digit. -/
def parseUnsigned (l : List Char) : Option Nat :=
  match l with
  | [] => none
  | c :: rest =>
    match digitVal c with
    | some d => parseDigitsAux rest d
    | none => none

/-- Python `int(s)` for base 10: strip whitespace, optional sign, digit run
with underscore separators.  `none` models the `ValueError` raise. -/
def pyInt (l : List Char) : Option Int :=
  match pyStrip l with
  | [] => none
  | c :: rest =>
    if c = '+' then (parseUnsigned rest).map (fun n => (n : Int))
    else if c = '-' then (parseUnsigned rest).map (fun n => -(n : Int))
    else (parseUnsigned (c :: rest)).map (fun n => (n : Int))

/-- Python `s.split("$")`. -/
def splitOnDollar : List Char → List (List Char)
  | [] => [[]]
  | c :: rest =>
    if c = '$' then [] :: splitOnDollar rest
    else
      match splitOnDollar rest with
      | [] => [[c]]
      | g :: gs => (c :: g) :: gs

/-- Python `bytes.fromhex`: pairs of hex digits, spaces permitted between
pairs; `none` models the `ValueError` raise. -/
def fromhex : List Char → Option (List Nat)
  | [] => some []
  | c :: rest =>
    if c = ' ' then fromhex rest
    else
      match rest with
      | [] => none
      | c2 :: rest2 =>
        match hexVal c, hexVal c2 with
        | some hi, some lo => (fromhex rest2).map (fun bs => (hi * 16 + lo) :: bs)
        | _, _ => none

/-- Python `bytes.hex()`: two lowercase hex digits per byte. -/
def hexEncode (bs : List Nat) : List Char :=
  (bs.map (fun b => [digitChr (b / 16), digitChr (b % 16)])).flatten

/-- UTF-8 encoding of one code point. -/
def utf8Char (c : Char) : List Nat :=
  let n := c.toNat
  if n < 128 then [n]
  else if n < 2048 then [192 + n / 64, 128 + n % 64]
  else if n < 65536 then [224 + n / 4096, 128 + n / 64 % 64, 128 + n % 64]
  else [240 + n / 262144, 128 + n / 4096 % 64, 128 + n / 64 % 64, 128 + n % 64]

/-- Python `s.encode("utf-8")`. -/
def utf8Encode (l : List Char) : List Nat := (l.map utf8Char).flatten

/-- CPython `_tscmp` accumulator loop used by `hmac.compare_digest`: one
iteration per byte pair, OR-ing the XOR of the pair into the accumulator. -/
def tscmpFold : List (Nat × Nat) → Nat → Nat
  | [], acc => acc
  | p :: rest, acc => tscmpFold rest (acc ||| (p.1 ^^^ p.2))

/-- `hmac.compare_digest`: when the lengths differ the left operand is
replaced by the right one and the accumulator starts nonzero, so the loop
always runs for the length of the right operand. -/
def compare_digest (a b : List Nat) : Bool :=
  tscmpFold ((if a.length = b.length then a else b).zip b)
    (if a.length = b.length then 0 else 1) == 0

/-- Loop iterations performed by the `compare_digest` byte loop. -/
def compare_digest_steps (a b : List Nat) : Nat :=
  ((if a.length = b.length then a else b).zip b).length

/-- Python exceptions observable in the embedded fragment. -/
inductive PyExn where
  | valueError (msg : String)
  | integrityError
  deriving DecidableEq, Repr

/-- Abstract PBKDF2-HMAC-SHA256: derived key from password bytes, salt
bytes and iteration count. -/
def KDF : Type := List Nat → List Nat → Nat → List Nat

/-- security.py `PBKDF2_ITERATIONS`. -/
def PBKDF2_ITERATIONS : Nat := 200000

/-- security.py `SALT_LENGTH`. -/
def SALT_LENGTH : Nat := 16

/-- The f-string body of `hash_password`:
`f"{PBKDF2_ITERATIONS}$\x7bsalt.hex()\x7d$\x7bdk.hex()\x7d"`. -/
def encodeRecord (iters : Nat) (salt dk : List Nat) : List Char :=
  toDecimal iters ++ '$' :: (hexEncode salt ++ '$' :: hexEncode dk)

/-- security.py `hash_password`, with the `os.urandom(SALT_LENGTH)` draw
passed in as the `salt` argument. -/
def hash_password (kdf : KDF) (salt : List Nat) (password : List Char) :
    Except PyExn (List Char) :=
  if password.isEmpty then .error (.valueError "Password must not be empty.")
  else .ok (encodeRecord PBKDF2_ITERATIONS salt
    (kdf (utf8Encode password) salt PBKDF2_ITERATIONS))

/-- security.py `_split_hash`. -/
def _split_hash (stored : List Char) :
    Except PyExn (Int × List Nat × List Nat) :=
  match splitOnDollar stored with
  | [p0, p1, p2] =>
    match pyInt p0 with
    | none => .error (.valueError "invalid literal for int() with base 10")
    | some n =>
      match fromhex p1 with
      | none => .error (.valueError "non-hexadecimal number found in fromhex() arg")
      | some salt =>
        match fromhex p2 with
        | none => .error (.valueError "non-hexadecimal number found in fromhex() arg")
        | some k => .ok (n, salt, k)
  | _ => .error (.valueError "Unsupported password hash format.")

/-- security.py `verify_password`.  Only the `_split_hash` call is inside
the `try` block; `pbkdf2_hmac` itself raises `ValueError` when the parsed
iteration count is below 1, and that raise is not caught. -/
def verify_password (kdf : KDF) (password stored : List Char) :
    Except PyExn Bool :=
  match _split_hash stored with
  | .error _ => .ok false
  | .ok (n, salt, expected) =>
    if n < 1 then .error (.valueError "iteration value must be greater than 0.")
    else .ok (compare_digest (kdf (utf8Encode password) salt n.toNat) expected)

/-- A row of the SQLite `users` table. -/
structure UserRow where
  id : Nat
  username : List Char
  password_hash : List Char
  full_name : Option (List Char)
  deriving DecidableEq, Repr

/-- The SQLite `users` table: rows plus the AUTOINCREMENT counter. -/
structure DbState where
  users : List UserRow
  nextId : Nat
  deriving DecidableEq, Repr

/-- `INSERT INTO users (username, password_hash, full_name) VALUES (?,?,?)`
under the schema `username TEXT NOT NULL UNIQUE`: the `UNIQUE` constraint
uses BINARY collation, so it rejects exactly byte-wise-equal duplicates
with `sqlite3.IntegrityError`. -/
def insertUser (st : DbState) (uname phash : List Char)
    (fn : Option (List Char)) : Except PyExn (Nat × DbState) :=
  if st.users.any (fun r => r.username == uname) then .error .integrityError
  else .ok (st.nextId,
    ⟨st.users ++ [⟨st.nextId, uname, phash, fn⟩], st.nextId + 1⟩)

/-- auth.py `AuthService.user_exists`:
`SELECT 1 FROM users WHERE lower(username) = ?` with the parameter
`username.strip().lower()` computed by Python. -/
def user_exists (st : DbState) (username : List Char) : Bool :=
  let u := pyLower (pyStrip username)
  if u.isEmpty then false
  else st.users.any (fun r => sqliteLower r.username == u)

/-- auth.py `AuthService.authenticate`. -/
def authenticate (kdf : KDF) (st : DbState) (username password : List Char) :
    Except PyExn (Option UserRow) :=
  let u := pyLower (pyStrip username)
  if u.isEmpty || password.isEmpty then .ok none
  else
    match st.users.find? (fun r => sqliteLower r.username == u) with
    | none => .ok none
    | some r =>
      match verify_password kdf password r.password_hash with
      | .error e => .error e
      | .ok true => .ok (some r)
      | .ok false => .ok none

/-- auth.py `AuthService.register_user`, with the salt drawn inside
`hash_password` passed in explicitly. -/
def register_user (kdf : KDF) (salt : List Nat) (st : DbState)
    (username password full_name : List Char) : Except PyExn (Nat × DbState) :=
  let u := pyStrip username
  if u.length < 3 then
    .error (.valueError "Имя пользователя должно содержать не менее 3 символов.")
  else if password.length < 6 then
    .error (.valueError "Пароль должен содержать не менее 6 символов.")
  else if user_exists st u then
    .error (.valueError "Пользователь с таким именем уже существует.")
  else
    match hash_password kdf salt password with
    | .error e => .error e
    | .ok h =>
      let fn := pyStrip full_name
      insertUser st u h (if fn.isEmpty then none else some fn)

/-- Database states reachable through the persistence layer: the freshly
created table, extended by successful inserts. -/
inductive Reachable : DbState → Prop
  | init : Reachable ⟨[], 1⟩
  | step (st : DbState) (u ph : List Char) (fn : Option (List Char))
      (i : Nat) (stNext : DbState) :
      Reachable st → insertUser st u ph fn = .ok (i, stNext) → Reachable stNext

/-- A concrete stand-in derivation function used to instantiate the
abstract `kdf` parameter in witnesses and counterexamples. -/
def kdfZero : KDF := fun _ _ _ => List.replicate 32 0

/-- A concrete 16-byte salt for witnesses. -/
def salt0 : List Nat := List.replicate 16 0

/-- The derived key `kdfZero` produces. -/
def dk0 : List Nat := List.replicate 32 0

/-- A well-formed stored record for `kdfZero`, any password, `salt0`. -/
def recAdmin : List Char := encodeRecord PBKDF2_ITERATIONS salt0 dk0

def adminChars : List Char := ['a', 'd', 'm', 'i', 'n']

def adminUpperChars : List Char := ['A', 'd', 'm', 'i', 'n']

def adminCapsChars : List Char := ['A', 'D', 'M', 'I', 'N']

/-- The stored `admin` row used by witnesses. -/
def adminRow : UserRow := ⟨1, adminChars, recAdmin, none⟩

/-- A one-user database holding the `admin` row. -/
def dbAdmin : DbState := ⟨[adminRow], 2⟩

/-- An arbitrary stored hash string for the C2 scenario. -/
def phX : List Char := ['h']

def cexSt1 : DbState := ⟨[⟨1, adminChars, phX, none⟩], 2⟩

def cexSt2 : DbState :=
  ⟨[⟨1, adminChars, phX, none⟩, ⟨2, adminUpperChars, phX, none⟩], 3⟩

/-- A three-character Cyrillic username (all uppercase ef). -/
def cyrChars : List Char := ['Ф', 'Ф', 'Ф']

/-- A database already holding the Cyrillic user. -/
def dbCyr : DbState := ⟨[⟨1, cyrChars, recAdmin, none⟩], 2⟩

def secretChars : List Char := ['s', 'e', 'c', 'r', 'e', 't', '1', '2', '3']

/-! ### Helper lemmas about characters and digits -/

theorem or_eq_zero_iff_nat (a b : Nat) : a ||| b = 0 ↔ a = 0 ∧ b = 0 := by
  constructor
  · intro h
    have ht : ∀ i, a.testBit i = false ∧ b.testBit i = false := by
      intro i
      have h1 : (a ||| b).testBit i = false := by rw [h]; exact Nat.zero_testBit i
      rw [Nat.testBit_or] at h1
      exact ⟨by revert h1; cases a.testBit i <;> cases b.testBit i <;> simp,
             by revert h1; cases a.testBit i <;> cases b.testBit i <;> simp⟩
    exact ⟨Nat.eq_of_testBit_eq (fun i => by rw [(ht i).1, Nat.zero_testBit]),
           Nat.eq_of_testBit_eq (fun i => by rw [(ht i).2, Nat.zero_testBit])⟩
  · rintro ⟨rfl, rfl⟩
    rfl

theorem digitChr_facts (n : Nat) (h : n < 16) :
    hexVal (digitChr n) = some n ∧ digitChr n ≠ ' ' ∧ digitChr n ≠ '$' := by
  interval_cases n <;> exact ⟨rfl, by decide, by decide⟩

theorem digitChr_digit (n : Nat) (h : n < 10) :
    48 ≤ (digitChr n).toNat ∧ (digitChr n).toNat ≤ 57 := by
  interval_cases n <;> decide

theorem digitVal_digitChr (n : Nat) (h : n < 10) :
    digitVal (digitChr n) = some n := by
  interval_cases n <;> rfl

theorem digit_ne_dollar (c : Char) (h : 48 ≤ c.toNat) : c ≠ '$' := by
  intro hc
  subst hc
  revert h
  decide

theorem digit_not_space (c : Char) (h1 : 48 ≤ c.toNat) (h2 : c.toNat ≤ 57) :
    isPySpace c = false := by
  simp only [isPySpace, Bool.or_eq_false_iff, decide_eq_false_iff_not]
  omega

theorem dropWhile_eq_self_of {p : Char → Bool} (l : List Char)
    (h : ∀ c ∈ l, p c = false) : l.dropWhile p = l := by
  cases l with
  | nil => rfl
  | cons c rest => simp [List.dropWhile_cons, h c (by simp)]

theorem pyStrip_eq_self (l : List Char) (h : ∀ c ∈ l, isPySpace c = false) :
    pyStrip l = l := by
  unfold pyStrip
  rw [dropWhile_eq_self_of l h]
  rw [dropWhile_eq_self_of l.reverse (fun c hc => h c (List.mem_reverse.mp hc))]
  exact List.reverse_reverse l

/-! ### Helper lemmas about splitting on the delimiter -/

theorem splitOnDollar_ne_nil (l : List Char) : splitOnDollar l ≠ [] := by
  induction l with
  | nil => simp [splitOnDollar]
  | cons c rest ih =>
    simp only [splitOnDollar]
    by_cases hc : c = '$'
    · simp [hc]
    · simp only [if_neg hc]
      cases hsp : splitOnDollar rest with
      | nil => simp
      | cons g gs => simp

theorem splitOnDollar_no_dollar (l : List Char) (h : ∀ c ∈ l, c ≠ '$') :
    splitOnDollar l = [l] := by
  induction l with
  | nil => rfl
  | cons c rest ih =>
    simp only [splitOnDollar]
    rw [if_neg (h c (by simp))]
    rw [ih (fun x hx => h x (by simp [hx]))]

theorem splitOnDollar_append (a b : List Char) (h : ∀ c ∈ a, c ≠ '$') :
    splitOnDollar (a ++ '$' :: b) = a :: splitOnDollar b := by
  induction a with
  | nil => simp [splitOnDollar]
  | cons c rest ih =>
    simp only [List.cons_append]
    simp only [splitOnDollar]
    rw [if_neg (h c (by simp))]
    rw [ih (fun x hx => h x (by simp [hx]))]

/-! ### Helper lemmas about decimal rendering and int parsing -/

theorem toDecimalAux_digits : ∀ fuel n, n < fuel →
    ∀ c ∈ toDecimalAux fuel n, 48 ≤ c.toNat ∧ c.toNat ≤ 57 := by
  intro fuel
  induction fuel with
  | zero => intro n h; omega
  | succ fuel ih =>
    intro n hn c hc
    simp only [toDecimalAux] at hc
    by_cases h10 : n < 10
    · rw [if_pos h10] at hc
      simp only [List.mem_singleton] at hc
      subst hc
      exact digitChr_digit n h10
    · rw [if_neg h10] at hc
      rcases List.mem_append.mp hc with h1 | h2
      · refine ih (n / 10) ?_ c h1
        have : n / 10 < n := Nat.div_lt_self (by omega) (by omega)
        omega
      · simp only [List.mem_singleton] at h2
        subst h2
        exact digitChr_digit _ (Nat.mod_lt n (by omega))

theorem toDecimalAux_ne_nil : ∀ fuel n, n < fuel → toDecimalAux fuel n ≠ [] := by
  intro fuel
  induction fuel with
  | zero => intro n h; omega
  | succ fuel _ =>
    intro n _
    simp only [toDecimalAux]
    by_cases h10 : n < 10
    · rw [if_pos h10]; simp
    · rw [if_neg h10]; simp

theorem toDecimal_digits (n : Nat) :
    ∀ c ∈ toDecimal n, 48 ≤ c.toNat ∧ c.toNat ≤ 57 :=
  toDecimalAux_digits (n + 1) n (Nat.lt_succ_self n)

theorem parseDigitsAux_append (l1 l2 : List Char) (h : ∀ c ∈ l1, c.toNat ≠ 95) :
    ∀ acc, parseDigitsAux (l1 ++ l2) acc =
      (parseDigitsAux l1 acc).bind (fun m => parseDigitsAux l2 m) := by
  induction l1 with
  | nil => intro acc; simp [parseDigitsAux]
  | cons c rest ih =>
    intro acc
    have hc := h c (by simp)
    simp only [List.cons_append]
    rw [parseDigitsAux.eq_def]
    conv_rhs => rw [parseDigitsAux.eq_def]
    cases hd : digitVal c with
    | none => simp [if_neg hc, hd]
    | some d =>
      simp only [if_neg hc, hd]
      exact ih (fun x hx => h x (by simp [hx])) (acc * 10 + d)

theorem parseDigitsAux_toDecimalAux : ∀ fuel n, n < fuel → ∀ acc,
    parseDigitsAux (toDecimalAux fuel n) acc =
      some (acc * 10 ^ (toDecimalAux fuel n).length + n) := by
  intro fuel
  induction fuel with
  | zero => intro n h; omega
  | succ fuel ih =>
    intro n hn acc
    by_cases h10 : n < 10
    · simp only [toDecimalAux, if_pos h10]
      have hne : ¬ (digitChr n).toNat = 95 := by
        have := digitChr_digit n h10
        omega
      simp only [parseDigitsAux, if_neg hne, digitVal_digitChr n h10]
      simp [parseDigitsAux]
    · simp only [toDecimalAux, if_neg h10]
      have hsub : n / 10 < fuel := by
        have : n / 10 < n := Nat.div_lt_self (by omega) (by omega)
        omega
      rw [parseDigitsAux_append _ _ (fun c hc => by
        have := toDecimalAux_digits fuel (n / 10) hsub c hc
        omega)]
      rw [ih (n / 10) hsub acc]
      have hmod : n % 10 < 10 := Nat.mod_lt n (by omega)
      have hne2 : ¬ (digitChr (n % 10)).toNat = 95 := by
        have := digitChr_digit (n % 10) hmod
        omega
      simp only [Option.bind_eq_bind, Option.some_bind, parseDigitsAux,
        if_neg hne2, digitVal_digitChr (n % 10) hmod]
      have hd : n / 10 * 10 + n % 10 = n := by omega
      rw [List.length_append, List.length_singleton]
      congr 1
      calc (acc * 10 ^ (toDecimalAux fuel (n / 10)).length + n / 10) * 10 + n % 10
          = acc * (10 ^ (toDecimalAux fuel (n / 10)).length * 10)
              + (n / 10 * 10 + n % 10) := by ring
        _ = acc * 10 ^ ((toDecimalAux fuel (n / 10)).length + 1) + n := by
              rw [hd, pow_succ]

theorem pyInt_toDecimal (n : Nat) : pyInt (toDecimal n) = some (n : Int) := by
  have hdig := toDecimal_digits n
  have hstrip : pyStrip (toDecimal n) = toDecimal n :=
    pyStrip_eq_self _ (fun c hc => digit_not_space c (hdig c hc).1 (hdig c hc).2)
  have hval := parseDigitsAux_toDecimalAux (n + 1) n (Nat.lt_succ_self n) 0
  have hne := toDecimalAux_ne_nil (n + 1) n (Nat.lt_succ_self n)
  rw [pyInt.eq_def, hstrip]
  cases hl : toDecimal n with
  | nil => exact absurd hl hne
  | cons c rest =>
    have hc : 48 ≤ c.toNat ∧ c.toNat ≤ 57 := hdig c (by rw [hl]; simp)
    have hplus : ¬ c = '+' := by
      intro h; subst h; revert hc; decide
    have hminus : ¬ c = '-' := by
      intro h; subst h; revert hc; decide
    have hdv : digitVal c = some (c.toNat - 48) := by
      unfold digitVal
      rw [if_pos hc]
    have hne95 : ¬ c.toNat = 95 := by omega
    unfold toDecimal at hl
    rw [hl] at hval
    rw [parseDigitsAux.eq_def] at hval
    simp only [if_neg hne95, hdv, Nat.zero_mul, Nat.zero_add] at hval
    simp only [if_neg hplus, if_neg hminus]
    rw [parseUnsigned.eq_def]
    simp only [hdv, hval]
    simp

/-! ### Helper lemmas about hex encoding -/

theorem hexEncode_nil : hexEncode [] = [] := rfl

theorem hexEncode_cons (b : Nat) (bs : List Nat) :
    hexEncode (b :: bs) = digitChr (b / 16) :: digitChr (b % 16) :: hexEncode bs := rfl

theorem hexEncode_no_dollar (bs : List Nat) (h : ∀ b ∈ bs, b < 256) :
    ∀ c ∈ hexEncode bs, c ≠ '$' := by
  intro c hc
  unfold hexEncode at hc
  rw [List.mem_flatten] at hc
  obtain ⟨s, hs, hcs⟩ := hc
  rw [List.mem_map] at hs
  obtain ⟨b, hb, rfl⟩ := hs
  have hblt := h b hb
  simp only [List.mem_cons, List.mem_singleton, List.not_mem_nil, or_false] at hcs
  rcases hcs with rfl | rfl
  · exact (digitChr_facts (b / 16) (by omega)).2.2
  · exact (digitChr_facts (b % 16) (by omega)).2.2

theorem fromhex_hexEncode (bs : List Nat) (h : ∀ b ∈ bs, b < 256) :
    fromhex (hexEncode bs) = some bs := by
  induction bs with
  | nil => rfl
  | cons b rest ih =>
    have hb := h b (by simp)
    have hhi := digitChr_facts (b / 16) (by omega)
    have hlo := digitChr_facts (b % 16) (by omega)
    rw [hexEncode_cons]
    rw [fromhex.eq_def]
    simp only [if_neg hhi.2.1, hhi.1, hlo.1]
    rw [ih (fun x hx => h x (by simp [hx]))]
    have hval : b / 16 * 16 + b % 16 = b := by omega
    simp [hval]

theorem hexEncode_length (bs : List Nat) :
    (hexEncode bs).length = 2 * bs.length := by
  induction bs with
  | nil => rfl
  | cons b rest ih =>
    rw [hexEncode_cons]
    simp only [List.length_cons, ih]
    omega

/-! ### Helper lemmas about the constant-time comparison -/

theorem tscmpFold_eq_zero (ps : List (Nat × Nat)) : ∀ acc,
    tscmpFold ps acc = 0 ↔ acc = 0 ∧ ∀ p ∈ ps, p.1 = p.2 := by
  induction ps with
  | nil => intro acc; simp [tscmpFold]
  | cons p rest ih =>
    intro acc
    show tscmpFold rest (acc ||| (p.1 ^^^ p.2)) = 0 ↔ _
    rw [ih]
    rw [or_eq_zero_iff_nat]
    constructor
    · rintro ⟨⟨h1, h2⟩, h3⟩
      refine ⟨h1, fun q hq => ?_⟩
      rcases List.mem_cons.mp hq with rfl | hq2
      · exact Nat.xor_eq_zero.mp h2
      · exact h3 q hq2
    · rintro ⟨h1, h2⟩
      exact ⟨⟨h1, Nat.xor_eq_zero.mpr (h2 p (by simp))⟩,
             fun q hq => h2 q (by simp [hq])⟩

theorem mem_zip_self {l : List Nat} {p : Nat × Nat} (hp : p ∈ l.zip l) :
    p.1 = p.2 := by
  induction l with
  | nil => cases hp
  | cons a rest ih =>
    rcases List.mem_cons.mp hp with rfl | h2
    · rfl
    · exact ih h2

theorem zip_pairs_eq : ∀ (a b : List Nat), a.length = b.length →
    (∀ p ∈ a.zip b, p.1 = p.2) → a = b := by
  intro a
  induction a with
  | nil =>
    intro b hlen _
    cases b with
    | nil => rfl
    | cons y ys => cases hlen
  | cons x xs ih =>
    intro b hlen hp
    cases b with
    | nil => cases hlen
    | cons y ys =>
      have hx : x = y := hp (x, y) (by simp [List.zip_cons_cons])
      have hxs : xs = ys := by
        refine ih ys (by simpa using hlen) (fun p hmem => hp p ?_)
        simp [List.zip_cons_cons, hmem]
      rw [hx, hxs]

theorem compare_digest_eq_true_iff (a b : List Nat) :
    compare_digest a b = true ↔ a = b := by
  unfold compare_digest
  rw [beq_iff_eq]
  by_cases h : a.length = b.length
  · rw [if_pos h, if_pos h, tscmpFold_eq_zero]
    constructor
    · rintro ⟨-, h2⟩
      exact zip_pairs_eq a b h h2
    · rintro rfl
      exact ⟨rfl, fun p hp => mem_zip_self hp⟩
  · rw [if_neg h, if_neg h, tscmpFold_eq_zero]
    constructor
    · rintro ⟨h1, -⟩
      cases h1
    · intro heq
      exact absurd (congrArg List.length heq) h

theorem compare_digest_steps_eq (a b : List Nat) :
    compare_digest_steps a b = b.length := by
  unfold compare_digest_steps
  by_cases h : a.length = b.length
  · rw [if_pos h, List.length_zip]
    omega
  · rw [if_neg h, List.length_zip]
    omega

/-! ### Helper lemmas about the encoded credential record -/

theorem split_encodeRecord (n : Nat) (s k : List Nat)
    (hs : ∀ b ∈ s, b < 256) (hk : ∀ b ∈ k, b < 256) :
    splitOnDollar (encodeRecord n s k) =
      [toDecimal n, hexEncode s, hexEncode k] := by
  unfold encodeRecord
  rw [splitOnDollar_append _ _
    (fun c hc => digit_ne_dollar c (toDecimal_digits n c hc).1)]
  rw [splitOnDollar_append _ _ (hexEncode_no_dollar s hs)]
  rw [splitOnDollar_no_dollar _ (hexEncode_no_dollar k hk)]

theorem split_hash_encodeRecord (n : Nat) (s k : List Nat)
    (hs : ∀ b ∈ s, b < 256) (hk : ∀ b ∈ k, b < 256) :
    _split_hash (encodeRecord n s k) = .ok ((n : Int), s, k) := by
  unfold _split_hash
  rw [split_encodeRecord n s k hs hk]
  simp [pyInt_toDecimal, fromhex_hexEncode s hs, fromhex_hexEncode k hk]

theorem verify_password_encodeRecord (kdf : KDF) (pw : List Char) (n : Nat)
    (hn : 1 ≤ n) (s : List Nat) (hs : ∀ b ∈ s, b < 256)
    (hk : ∀ b ∈ kdf (utf8Encode pw) s n, b < 256) :
    verify_password kdf pw
      (encodeRecord n s (kdf (utf8Encode pw) s n)) = .ok true := by
  unfold verify_password
  rw [split_hash_encodeRecord n s _ hs hk]
  have hlt : ¬ ((n : Int) < 1) := by omega
  simp only [if_neg hlt]
  have htn : ((n : Int)).toNat = n := Int.toNat_natCast n
  rw [htn]
  rw [(compare_digest_eq_true_iff _ _).mpr rfl]

/-- `hash_password` on a non-empty password returns the encoded record. -/
theorem hash_password_ok (kdf : KDF) (salt : List Nat) (p : List Char)
    (hp : p ≠ []) :
    hash_password kdf salt p =
      .ok (encodeRecord PBKDF2_ITERATIONS salt
        (kdf (utf8Encode p) salt PBKDF2_ITERATIONS)) := by
  have hne : p.isEmpty = false := by
    cases p with
    | nil => exact absurd rfl hp
    | cons c t => rfl
  unfold hash_password
  rw [hne]
  simp

/-! ### Claims -/

/-- Claim C1: the claim states that `verify_password` returns a boolean and
never raises, returning false on every parse failure including a
non-positive iteration count.  The code violates this: the record
`"0$aa$bb"` parses successfully inside the guarded `_split_hash`, and the
unguarded `pbkdf2_hmac` call then raises `ValueError` because the parsed
iteration count 0 is not positive.  This theorem evaluates the model at
that failing input. -/
theorem C1_verify_raises_on_nonpositive_iterations :
    _split_hash (String.toList "0$aa$bb") = .ok (0, [170], [187]) ∧
    verify_password kdfZero (String.toList "x") (String.toList "0$aa$bb") =
      .error (.valueError "iteration value must be greater than 0.") :=
  ⟨rfl, rfl⟩

/-- Claim C3: round trip — for every non-empty password and every 16-byte
salt drawn from the entropy source, verifying the freshly hashed record
succeeds.  Stated for an arbitrary derivation function returning bytes. -/
theorem C3_verify_of_hash_roundtrip (kdf : KDF) (salt : List Nat)
    (p : List Char) (hp : p ≠ [])
    (hslen : salt.length = SALT_LENGTH)
    (hs : ∀ b ∈ salt, b < 256)
    (hk : ∀ b ∈ kdf (utf8Encode p) salt PBKDF2_ITERATIONS, b < 256) :
    ∃ record, hash_password kdf salt p = .ok record ∧
      verify_password kdf p record = .ok true := by
  refine ⟨encodeRecord PBKDF2_ITERATIONS salt
    (kdf (utf8Encode p) salt PBKDF2_ITERATIONS),
    hash_password_ok kdf salt p hp, ?_⟩
  exact verify_password_encodeRecord kdf p PBKDF2_ITERATIONS
    (by norm_num [PBKDF2_ITERATIONS]) salt hs hk

/-- Witness for C3 at a concrete password, salt and derivation function. -/
theorem C3_roundtrip_witness :
    (['x'] : List Char) ≠ [] ∧
    ∃ record, hash_password kdfZero salt0 ['x'] = .ok record ∧
      verify_password kdfZero ['x'] record = .ok true :=
  ⟨by decide, C3_verify_of_hash_roundtrip kdfZero salt0 ['x'] (by decide)
    (by decide) (by decide) (by decide)⟩

/-- Claim C6: `hash_password` raises exactly on the empty password; on a
non-empty password it returns a record of exactly three dollar-separated
fields — the decimal constant 200000, the hex of the 16-byte salt (32 hex
characters), and the hex of the derived key — and the delimiter occurs
inside no field. -/
theorem C6_hash_password_format (kdf : KDF) (salt : List Nat) (p : List Char)
    (hslen : salt.length = SALT_LENGTH)
    (hs : ∀ b ∈ salt, b < 256)
    (hk : ∀ b ∈ kdf (utf8Encode p) salt PBKDF2_ITERATIONS, b < 256) :
    (hash_password kdf salt p =
        .error (.valueError "Password must not be empty.") ↔ p = []) ∧
    (p ≠ [] →
      hash_password kdf salt p = .ok (encodeRecord PBKDF2_ITERATIONS salt
        (kdf (utf8Encode p) salt PBKDF2_ITERATIONS)) ∧
      splitOnDollar (encodeRecord PBKDF2_ITERATIONS salt
          (kdf (utf8Encode p) salt PBKDF2_ITERATIONS)) =
        [toDecimal PBKDF2_ITERATIONS, hexEncode salt,
          hexEncode (kdf (utf8Encode p) salt PBKDF2_ITERATIONS)] ∧
      pyInt (toDecimal PBKDF2_ITERATIONS) = some 200000 ∧
      (hexEncode salt).length = 32 ∧
      (∀ part ∈ splitOnDollar (encodeRecord PBKDF2_ITERATIONS salt
          (kdf (utf8Encode p) salt PBKDF2_ITERATIONS)),
        ∀ c ∈ part, c ≠ '$')) := by
  constructor
  · constructor
    · intro herr
      cases p with
      | nil => rfl
      | cons c t =>
        rw [hash_password_ok kdf salt (c :: t) (by simp)] at herr
        cases herr
    · intro hp
      subst hp
      rfl
  · intro hp
    refine ⟨hash_password_ok kdf salt p hp, split_encodeRecord _ _ _ hs hk,
      pyInt_toDecimal PBKDF2_ITERATIONS, ?_, ?_⟩
    · rw [hexEncode_length, hslen]
      rfl
    · intro part hpart c hcpart
      rw [split_encodeRecord _ _ _ hs hk] at hpart
      simp only [List.mem_cons, List.mem_singleton, List.not_mem_nil,
        or_false] at hpart
      rcases hpart with rfl | rfl | rfl
      · exact digit_ne_dollar c (toDecimal_digits PBKDF2_ITERATIONS c hcpart).1
      · exact hexEncode_no_dollar salt hs c hcpart
      · exact hexEncode_no_dollar _ hk c hcpart

/-- Witness for C6 at a concrete password, salt and derivation function. -/
theorem C6_format_witness :
    hash_password kdfZero salt0 ['x'] =
      .ok (encodeRecord PBKDF2_ITERATIONS salt0
        (kdfZero (utf8Encode ['x']) salt0 PBKDF2_ITERATIONS)) ∧
    hash_password kdfZero salt0 [] =
      .error (.valueError "Password must not be empty.") := by
  have h1 := C6_hash_password_format kdfZero salt0 ['x'] (by decide)
    (by decide) (by decide)
  have h2 := C6_hash_password_format kdfZero salt0 [] (by decide)
    (by decide) (by decide)
  exact ⟨(h1.2 (by decide)).1, h2.1.mpr rfl⟩

/-- Claim C7: `verify_password` hands the recomputed and stored keys to
`compare_digest`, and under the loop-iteration cost model of the CPython
`_tscmp` primitive the comparison performs identical total work for any
two candidate keys — the work depends only on the stored operand, never on
where the first differing byte occurs — while still deciding exact
equality. -/
theorem C7_constant_time_comparison :
    (∀ (kdf : KDF) (pw stored : List Char) (n : Int) (salt key : List Nat),
      _split_hash stored = .ok (n, salt, key) → 1 ≤ n →
      verify_password kdf pw stored =
        .ok (compare_digest (kdf (utf8Encode pw) salt n.toNat) key)) ∧
    (∀ a1 a2 b : List Nat,
      compare_digest_steps a1 b = compare_digest_steps a2 b) ∧
    (∀ a b : List Nat, compare_digest a b = true ↔ a = b) := by
  refine ⟨?_, ?_, compare_digest_eq_true_iff⟩
  · intro kdf pw stored n salt key hsplit hn
    unfold verify_password
    rw [hsplit]
    simp only [if_neg (by omega : ¬ n < 1)]
  · intro a1 a2 b
    rw [compare_digest_steps_eq, compare_digest_steps_eq]

/-- Witness for C7 at a concrete parsed record. -/
theorem C7_comparison_witness :
    verify_password kdfZero ['x'] (String.toList "1$aa$bb") =
      .ok (compare_digest (kdfZero (utf8Encode ['x']) [170] (1 : Int).toNat)
        [187]) :=
  C7_constant_time_comparison.1 kdfZero ['x'] (String.toList "1$aa$bb")
    1 [170] [187] rfl (by decide)

/-- Claim C8: the encoding is self-describing — `verify_password` recomputes
the key with the iteration count parsed from the record itself, so a
record built with any positive iteration count n verifies; the statement
never mentions the current default constant, so it is unaffected by any
change to it. -/
theorem C8_self_describing_record (kdf : KDF) (pw : List Char) (n : Nat)
    (hn : 1 ≤ n) (s : List Nat) (hs : ∀ b ∈ s, b < 256)
    (hk : ∀ b ∈ kdf (utf8Encode pw) s n, b < 256) :
    verify_password kdf pw (encodeRecord n s (kdf (utf8Encode pw) s n)) =
      .ok true :=
  verify_password_encodeRecord kdf pw n hn s hs hk

/-- Witness for C8 with iteration count 3, far from the default constant. -/
theorem C8_self_describing_witness :
    verify_password kdfZero ['x']
      (encodeRecord 3 salt0 (kdfZero (utf8Encode ['x']) salt0 3)) = .ok true :=
  C8_self_describing_record kdfZero ['x'] 3 (by decide) salt0 (by decide)
    (by decide)

/-- Claim C9: salt dependence — for one non-empty password and two distinct
16-byte salts the encoded outputs differ, while both verify the password;
the hash is a pure function of password and salt, so differing outputs are
exactly salt-driven (no caching can identify them). -/
theorem C9_distinct_salts_distinct_hashes (kdf : KDF) (s1 s2 : List Nat)
    (p : List Char) (hp : p ≠ [])
    (h1len : s1.length = SALT_LENGTH) (h2len : s2.length = SALT_LENGTH)
    (h1 : ∀ b ∈ s1, b < 256) (h2 : ∀ b ∈ s2, b < 256)
    (hne : s1 ≠ s2)
    (hk1 : ∀ b ∈ kdf (utf8Encode p) s1 PBKDF2_ITERATIONS, b < 256)
    (hk2 : ∀ b ∈ kdf (utf8Encode p) s2 PBKDF2_ITERATIONS, b < 256) :
    hash_password kdf s1 p ≠ hash_password kdf s2 p ∧
    (∃ r1, hash_password kdf s1 p = .ok r1 ∧
      verify_password kdf p r1 = .ok true) ∧
    (∃ r2, hash_password kdf s2 p = .ok r2 ∧
      verify_password kdf p r2 = .ok true) := by
  refine ⟨?_, ⟨_, hash_password_ok kdf s1 p hp,
      verify_password_encodeRecord kdf p PBKDF2_ITERATIONS
        (by norm_num [PBKDF2_ITERATIONS]) s1 h1 hk1⟩,
    ⟨_, hash_password_ok kdf s2 p hp,
      verify_password_encodeRecord kdf p PBKDF2_ITERATIONS
        (by norm_num [PBKDF2_ITERATIONS]) s2 h2 hk2⟩⟩
  rw [hash_password_ok kdf s1 p hp, hash_password_ok kdf s2 p hp]
  intro heq
  have hrec : encodeRecord PBKDF2_ITERATIONS s1
      (kdf (utf8Encode p) s1 PBKDF2_ITERATIONS) =
      encodeRecord PBKDF2_ITERATIONS s2
      (kdf (utf8Encode p) s2 PBKDF2_ITERATIONS) := by
    injection heq
  have hsplit := congrArg splitOnDollar hrec
  rw [split_encodeRecord _ _ _ h1 hk1, split_encodeRecord _ _ _ h2 hk2]
    at hsplit
  have hhex : hexEncode s1 = hexEncode s2 := by
    injection hsplit with hh ht
    injection ht with hh2 ht2
  have hss := congrArg fromhex hhex
  rw [fromhex_hexEncode s1 h1, fromhex_hexEncode s2 h2] at hss
  exact hne (Option.some.injEq .. |>.mp hss)

/-- Witness for C9 with two concrete distinct salts. -/
theorem C9_distinct_salts_witness :
    hash_password kdfZero salt0 ['x'] ≠
      hash_password kdfZero (1 :: List.replicate 15 0) ['x'] :=
  (C9_distinct_salts_distinct_hashes kdfZero salt0 (1 :: List.replicate 15 0)
    ['x'] (by decide) (by decide) (by decide) (by decide) (by decide)
    (by decide) (by decide) (by decide)).1

/-- If two character maps agree on a whole list, they agree on each
member. -/
theorem map_eq_map_mem {f g : Char → Char} :
    ∀ l : List Char, l.map f = l.map g → ∀ x ∈ l, f x = g x := by
  intro l
  induction l with
  | nil => intro _ x hx; cases hx
  | cons c rest ih =>
    intro heq x hx
    simp only [List.map_cons, List.cons.injEq] at heq
    rcases List.mem_cons.mp hx with rfl | hx2
    · exact heq.1
    · exact ih heq.2 x hx2

/-- Claim C2 counterexample: the insert of `"Admin"` over an existing
`"admin"` row succeeds instead of failing with a storage conflict, and the
resulting state — reachable through the persistence layer — holds two rows
whose usernames differ only in letter case. -/
theorem C2_case_insensitive_unique_counterexample :
    insertUser ⟨[], 1⟩ adminChars phX none = .ok (1, cexSt1) ∧
    insertUser cexSt1 adminUpperChars phX none = .ok (2, cexSt2) ∧
    Reachable cexSt2 ∧
    cexSt2.users.map UserRow.username = [adminChars, adminUpperChars] ∧
    pyLower adminChars = pyLower adminUpperChars ∧
    adminChars ≠ adminUpperChars := by
  refine ⟨rfl, rfl, ?_, rfl, by decide, by decide⟩
  exact Reachable.step cexSt1 adminUpperChars phX none 2 cexSt2
    (Reachable.step ⟨[], 1⟩ adminChars phX none 1 cexSt1 Reachable.init rfl)
    rfl

/-- Claim C2 amended: the `users` table constraint is case-sensitive, not
case-insensitive — an insert fails with `IntegrityError` exactly when a
byte-wise-equal username is already stored, and every reachable state is
free of exact duplicates (while case-colliding pairs remain reachable, as
the counterexample shows). -/
theorem C2_exact_uniqueness_only :
    (∀ (st : DbState) (u ph : List Char) (fn : Option (List Char)),
      insertUser st u ph fn = .error .integrityError ↔
        st.users.any (fun r => r.username == u) = true) ∧
    (∀ st : DbState, Reachable st →
      st.users.Pairwise (fun r1 r2 => r1.username ≠ r2.username)) := by
  constructor
  · intro st u ph fn
    unfold insertUser
    by_cases h : st.users.any (fun r => r.username == u) = true
    · simp [h]
    · simp [h]
  · intro st hr
    induction hr with
    | init => simp
    | step st u ph fn i stNext hr hins ih =>
      unfold insertUser at hins
      by_cases h : st.users.any (fun r => r.username == u) = true
      · rw [if_pos h] at hins
        cases hins
      · rw [if_neg h] at hins
        cases hins
        simp only []
        rw [List.pairwise_append]
        refine ⟨ih, by simp, ?_⟩
        intro a ha b hb
        simp only [List.mem_singleton] at hb
        subst hb
        intro hco
        apply h
        rw [List.any_eq_true]
        exact ⟨a, ha, by simp [hco]⟩

/-- Witness for the amended C2 on the empty initial state. -/
theorem C2_exact_uniqueness_witness :
    (insertUser ⟨[], 1⟩ adminChars phX none = .error .integrityError ↔
      (DbState.mk [] 1).users.any (fun r => r.username == adminChars) = true) ∧
    (DbState.mk [] 1).users.Pairwise (fun r1 r2 => r1.username ≠ r2.username) :=
  ⟨C2_exact_uniqueness_only.1 ⟨[], 1⟩ adminChars phX none,
   C2_exact_uniqueness_only.2 ⟨[], 1⟩ Reachable.init⟩

/-- Claim C4 counterexample: with the Cyrillic username already stored,
registering the identical string passes all three validations — in
particular the duplicate check, which compares SQLite's ASCII-only
`lower()` of the stored name against Python's full `lower()` of the input
and therefore misses the case-insensitively (indeed byte-wise) equal
duplicate — so no `PolicyViolation` is raised and no id is returned: the
insert hits the byte-wise UNIQUE constraint and `IntegrityError`
propagates. -/
theorem C4_counterexample_cyrillic_duplicate :
    user_exists dbCyr cyrChars = false ∧
    register_user kdfZero salt0 dbCyr cyrChars secretChars [] =
      .error .integrityError :=
  ⟨rfl, rfl⟩

/-- Claim C4 amended: `register_user` validates in the fixed order, stopping
at the first failure, with no write on any validation failure; the
duplicate check compares SQLite's ASCII-only `lower()` of stored names
with Python's `lower()` of the trimmed input (agreeing with
case-insensitive matching on ASCII but missing non-ASCII case pairs); and
when all three checks pass, the insert returns the assigned id unless a
byte-wise-equal username is already stored, in which case
`IntegrityError` propagates instead of an id being returned. -/
theorem C4_validation_order (kdf : KDF) (salt : List Nat) (st : DbState)
    (u p f : List Char) :
    ((pyStrip u).length < 3 →
      register_user kdf salt st u p f =
        .error (.valueError "Имя пользователя должно содержать не менее 3 символов.")) ∧
    (¬ (pyStrip u).length < 3 → p.length < 6 →
      register_user kdf salt st u p f =
        .error (.valueError "Пароль должен содержать не менее 6 символов.")) ∧
    (¬ (pyStrip u).length < 3 → ¬ p.length < 6 →
      user_exists st (pyStrip u) = true →
      register_user kdf salt st u p f =
        .error (.valueError "Пользователь с таким именем уже существует.")) ∧
    (¬ (pyStrip u).length < 3 → ¬ p.length < 6 →
      user_exists st (pyStrip u) = false →
      st.users.any (fun r => r.username == pyStrip u) = true →
      register_user kdf salt st u p f = .error .integrityError) ∧
    (¬ (pyStrip u).length < 3 → ¬ p.length < 6 →
      user_exists st (pyStrip u) = false →
      st.users.any (fun r => r.username == pyStrip u) = false →
      register_user kdf salt st u p f = .ok (st.nextId,
        ⟨st.users ++ [⟨st.nextId, pyStrip u,
          encodeRecord PBKDF2_ITERATIONS salt
            (kdf (utf8Encode p) salt PBKDF2_ITERATIONS),
          if (pyStrip f).isEmpty then none else some (pyStrip f)⟩],
         st.nextId + 1⟩)) := by
  have hpne : ¬ p.length < 6 → p ≠ [] := by
    intro hlen hnil
    subst hnil
    simp at hlen
  refine ⟨?_, ?_, ?_, ?_, ?_⟩
  · intro h1
    unfold register_user
    rw [if_pos h1]
  · intro h1 h2
    unfold register_user
    rw [if_neg h1, if_pos h2]
  · intro h1 h2 h3
    unfold register_user
    rw [if_neg h1, if_neg h2]
    simp only [h3, if_true]
  · intro h1 h2 h3 h4
    unfold register_user
    rw [if_neg h1, if_neg h2, h3]
    rw [hash_password_ok kdf salt p (hpne h2)]
    unfold insertUser
    rw [h4]
    rfl
  · intro h1 h2 h3 h4
    unfold register_user
    rw [if_neg h1, if_neg h2, h3]
    rw [hash_password_ok kdf salt p (hpne h2)]
    unfold insertUser
    rw [h4]
    rfl

/-- Witness for the amended C4 on the too-short-username branch. -/
theorem C4_validation_witness :
    register_user kdfZero salt0 ⟨[], 1⟩ ['a', 'b'] secretChars [] =
      .error (.valueError "Имя пользователя должно содержать не менее 3 символов.") :=
  (C4_validation_order kdfZero salt0 ⟨[], 1⟩ ['a', 'b'] secretChars []).1
    (by decide)

/-- Claim C5: `authenticate` trims and lower-cases the username for the
lookup only; it returns no match, without raising, when the normalized
username is empty, when the password is empty, when no row matches, or
when verification returns false; and on success it returns the stored row
itself, so the username keeps its original stored casing. -/
theorem C5_authenticate_cases (kdf : KDF) (st : DbState) (u pw : List Char) :
    (pyLower (pyStrip u) = [] → authenticate kdf st u pw = .ok none) ∧
    (pw = [] → authenticate kdf st u pw = .ok none) ∧
    (st.users.find? (fun r =>
        sqliteLower r.username == pyLower (pyStrip u)) = none →
      authenticate kdf st u pw = .ok none) ∧
    (∀ r, st.users.find? (fun r =>
        sqliteLower r.username == pyLower (pyStrip u)) = some r →
      pyLower (pyStrip u) ≠ [] → pw ≠ [] →
      (verify_password kdf pw r.password_hash = .ok false →
        authenticate kdf st u pw = .ok none) ∧
      (verify_password kdf pw r.password_hash = .ok true →
        authenticate kdf st u pw = .ok (some r) ∧ r ∈ st.users)) := by
  refine ⟨?_, ?_, ?_, ?_⟩
  · intro hn
    unfold authenticate
    rw [hn]
    rfl
  · intro hp
    subst hp
    unfold authenticate
    simp
  · intro hfind
    unfold authenticate
    simp [hfind]
  · intro r hfind hn hp
    have hne : ((pyLower (pyStrip u)).isEmpty || pw.isEmpty) = false := by
      cases hu : (pyLower (pyStrip u)).isEmpty with
      | true => exact absurd (List.isEmpty_iff.mp hu) hn
      | false =>
        cases hpw : pw.isEmpty with
        | true => exact absurd (List.isEmpty_iff.mp hpw) hp
        | false => rfl
    constructor
    · intro hverify
      unfold authenticate
      simp only [hne, Bool.false_eq_true, if_false, hfind, hverify]
    · intro hverify
      refine ⟨?_, List.mem_of_find?_eq_some hfind⟩
      unfold authenticate
      simp only [hne, Bool.false_eq_true, if_false, hfind, hverify]

/-- Witness for C5: `authenticate("ADMIN", pw)` returns the stored row
whose username is the lower-case `"admin"`. -/
theorem C5_authenticate_witness :
    authenticate kdfZero dbAdmin adminCapsChars secretChars =
      .ok (some adminRow) ∧ adminRow.username = adminChars := by
  have h := (C5_authenticate_cases kdfZero dbAdmin adminCapsChars
    secretChars).2.2.2 adminRow rfl (by decide) (by decide)
  exact ⟨(h.2 rfl).1, rfl⟩

/-- Claim C10: for a stored username that is its own trim and contains an
uppercase non-ASCII letter (one that Python lower-cases but SQLite's
ASCII-only `lower()` leaves unchanged), looking the account up with
exactly the stored string finds nothing: `authenticate` returns no match
and `user_exists` returns false. -/
theorem C10_non_ascii_case_folding (kdf : KDF) (row : UserRow)
    (st : DbState) (hst : st.users = [row]) (pw : List Char)
    (htrim : pyStrip row.username = row.username)
    (c : Char) (hc : c ∈ row.username)
    (hascii : 128 ≤ c.toNat) (hfold : pyLowerChar c ≠ c) :
    authenticate kdf st row.username pw = .ok none ∧
    user_exists st row.username = false := by
  have hneq : sqliteLower row.username ≠ pyLower (pyStrip row.username) := by
    rw [htrim]
    intro heq
    have hmem := map_eq_map_mem row.username heq c hc
    have hs : sqliteLowerChar c = c := by
      unfold sqliteLowerChar
      rw [if_neg (by omega)]
    rw [hs] at hmem
    exact hfold hmem.symm
  have hpred : (sqliteLower row.username ==
      pyLower (pyStrip row.username)) = false := by
    exact beq_eq_false_iff_ne.mpr hneq
  have hfind : st.users.find? (fun r =>
      sqliteLower r.username == pyLower (pyStrip row.username)) = none := by
    rw [hst]
    simp [List.find?, hpred]
  have hnonempty : pyLower (pyStrip row.username) ≠ [] := by
    rw [htrim]
    intro hnil
    unfold pyLower at hnil
    rw [List.map_eq_nil_iff] at hnil
    rw [hnil] at hc
    cases hc
  constructor
  · unfold authenticate
    simp [hfind]
  · unfold user_exists
    have hie : (pyLower (pyStrip row.username)).isEmpty = false := by
      cases hi : (pyLower (pyStrip row.username)).isEmpty with
      | true => exact absurd (List.isEmpty_iff.mp hi) hnonempty
      | false => rfl
    simp [hie, hst, hpred]

/-- Witness for C10 on the stored Cyrillic username. -/
theorem C10_non_ascii_witness :
    authenticate kdfZero dbCyr cyrChars ['x'] = .ok none ∧
    user_exists dbCyr cyrChars = false :=
  C10_non_ascii_case_folding kdfZero ⟨1, cyrChars, recAdmin, none⟩ dbCyr rfl
    ['x'] (by decide) 'Ф' (by decide) (by decide) (by decide)
